import Mathlib

/-!
Verification of the document chunking and retrieval pipeline of the
ChatBot-Q-A repository.

The repository (src/utils.py, src/ingest.py, src/api.py, src/qa_cli.py)
loads documents, splits them into overlapping chunks, indexes them into a
vector store with content-derived ids, and answers questions from retrieved
chunks.  The hierarchical text splitter itself lives in an external library
(langchain's RecursiveCharacterTextSplitter) and is not part of the
repository sources; following the specification, the splitter is modelled
here from the spec's algorithm (section 4.1).  Everything else is a direct
shallow embedding of the Python code: texts are lists of characters or
strings, fallible operations return Except, and the external collaborators
(loader, embedder, vector store, language model) are passed in as function
parameters.
-/

namespace ChatBotQA

/-! ## Text splitter, modelled from the spec (section 4.1) -/

/-- `leadsWith sep text` holds when `sep` is an initial run of `text`
(a self-contained replacement for a library check of the same meaning). -/
def leadsWith : List Char → List Char → Bool
  | [], _ => true
  | _ :: _, [] => false
  | a :: as, b :: bs => a == b && leadsWith as bs

/-- Find the first occurrence of the separator `sep` in `text`.  Returns
`some (pre, post)` where `text = pre ++ sep ++ post`, or `none` when the
separator does not occur. -/
def splitOnce (sep : List Char) : List Char → Option (List Char × List Char)
  | [] => none
  | c :: cs =>
    if leadsWith sep (c :: cs) then some ([], (c :: cs).drop sep.length)
    else
      match splitOnce sep cs with
      | none => none
      | some (pre, post) => some (c :: pre, post)

/-- Modelled from the spec: split `text` on a non-empty separator, keeping
the separator attached to each segment except possibly the last, so that
concatenation of the segments reproduces `text`.  The `fuel` argument makes
the recursion structural; `text.length` fuel is always sufficient because
every step consumes at least the separator. -/
def splitKeepSepFuel (sep : List Char) : Nat → List Char → List (List Char)
  | _, [] => []
  | 0, text => [text]
  | fuel + 1, text =>
    match splitOnce sep text with
    | none => [text]
    | some (pre, post) => (pre ++ sep) :: splitKeepSepFuel sep fuel post

/-- Modelled from the spec: split `text` into segments on `sep`, keeping the
separator attached; the empty separator means "split anywhere, per character
unit". -/
def splitKeepSep (sep : List Char) (text : List Char) : List (List Char) :=
  if sep.isEmpty then text.map (fun c => [c])
  else splitKeepSepFuel sep text.length text

/-- The last `covl` characters of a chunk (the whole chunk when it is
shorter), used to seed the next buffer.  Modelled from the spec's "overlap
suffix of the previous chunk (the last `chunk_overlap` characters)". -/
def overlapSuffix (covl : Nat) (b : List Char) : List Char :=
  b.drop (b.length - covl)

/-- Modelled from the spec, steps 3-5 of the splitting algorithm: greedily
pack segments into a running buffer; a segment that alone exceeds
`chunk_size` is handed to `f` (the recursive split with the next
separators); when a segment does not fit, the buffer is emitted and the new
buffer is seeded with the overlap suffix of the emitted chunk followed by
the segment; the final non-empty buffer is emitted last. -/
def mergeLoop (f : List Char → List (List Char)) (csize covl : Nat) :
    List (List Char) → List Char → List (List Char)
  | [], buffer => if buffer.isEmpty then [] else [buffer]
  | s :: ss, buffer =>
    if csize < s.length then
      (if buffer.isEmpty then [] else [buffer]) ++ f s ++ mergeLoop f csize covl ss []
    else if buffer.length + s.length ≤ csize then
      mergeLoop f csize covl ss (buffer ++ s)
    else
      buffer :: mergeLoop f csize covl ss (overlapSuffix covl buffer ++ s)

/-- Modelled from the spec: the hierarchical recursive character splitter.
A text short enough is returned whole; otherwise it is split on the first
separator and the segments are greedily merged, recursing with the
remaining separators into any segment that alone exceeds `chunk_size`; when
no separators remain the oversized text is emitted unchanged. -/
def splitRec (csize covl : Nat) : List (List Char) → List Char → List (List Char)
  | [], text => if text.isEmpty then [] else [text]
  | sep :: rest, text =>
    if text.isEmpty then []
    else if text.length ≤ csize then [text]
    else mergeLoop (splitRec csize covl rest) csize covl (splitKeepSep sep text) []

/-- The separator hierarchy configured in `split_documents`
(src/utils.py line 141). -/
def defaultSeparators : List (List Char) :=
  [['\n', '\n'], ['\n'], ['.'], ['!'], ['?'], [' '], []]

/-- Split one text with the separator hierarchy of `split_documents`. -/
def splitText (csize covl : Nat) (text : List Char) : List (List Char) :=
  splitRec csize covl defaultSeparators text

/-- Claim-level reading of reconstruction: concatenate the chunks after
removing each chunk's leading `covl` characters, except the first chunk's. -/
def dropOverlapConcat (covl : Nat) : List (List Char) → List Char
  | [] => []
  | c :: cs => c ++ (cs.map (fun x => x.drop covl)).flatten

/-- The length of the longest shared suffix/prefix of two adjacent chunks:
the largest `L` such that the last `L` characters of `c1` equal the first
`L` characters of `c2`. -/
def sharedOverlap (c1 c2 : List Char) : Nat :=
  (List.range (min c1.length c2.length + 1)).foldl
    (fun best L => if c1.drop (c1.length - L) = c2.take L then max best L else best) 0

/-- The overlap discipline actually implemented by the splitter.
`Rebuilds covl prev cs t` holds when the chunk list `cs` reconstructs the
text `t` once each chunk's leading overlap is removed; the leading overlap
of a chunk is either absent (length `0`, at boundaries created by recursing
into an oversized segment and for the first chunk) or exactly the
`min covl length` suffix of the chunk before it (`prev` for the head of
`cs`). -/
inductive Rebuilds (covl : Nat) : List Char → List (List Char) → List Char → Prop
  | nil (prev : List Char) : Rebuilds covl prev [] []
  | cons (prev c : List Char) (o : Nat) (cs : List (List Char)) (t : List Char)
      (hoc : o = 0 ∨ o = min covl prev.length)
      (holen : o ≤ c.length)
      (hpre : c.take o = prev.drop (prev.length - o))
      (htail : Rebuilds covl c cs t) :
      Rebuilds covl prev (c :: cs) (c.drop o ++ t)

/-! ## Data model (langchain `Document` as the repository uses it) -/

/-- A langchain document: raw text plus string metadata. -/
structure Document where
  page_content : String
  metadata : List (String × String)
deriving DecidableEq

/-- `metadata.get(k, dflt)` (Python dict lookup with default). -/
def getMeta (m : List (String × String)) (k dflt : String) : String :=
  match m.find? (fun p => p.1 == k) with
  | some p => p.2
  | none => dflt

/-- `metadata.get(k)` without a default, to state the absence of a key. -/
def lookupMeta (m : List (String × String)) (k : String) : Option String :=
  (m.find? (fun p => p.1 == k)).map (fun p => p.2)

/-- `metadata[k] = v` (Python dict assignment): replace the binding when
the key is present, append it otherwise. -/
def setMeta (m : List (String × String)) (k v : String) : List (String × String) :=
  if m.any (fun p => p.1 == k) then m.map (fun p => if p.1 == k then (k, v) else p)
  else m ++ [(k, v)]

/-! ## utils.py: split_documents and load_documents -/

/-- Modelled from the spec (section 7): `chunk_overlap >= chunk_size` is a
configuration error that fails fast; the check itself lives in the external
splitter library, not under src/. -/
inductive ConfigurationError
  | overlapNotLessThanSize
deriving DecidableEq

/-- `split_documents` (src/utils.py lines 94-143): validate the
configuration, then split every document's text with the default separator
hierarchy, each chunk inheriting its parent's metadata verbatim. -/
def split_documents (docs : List Document) (csize covl : Nat) :
    Except ConfigurationError (List Document) :=
  if csize ≤ covl then .error .overlapNotLessThanSize
  else .ok ((docs.map (fun d =>
    (splitText csize covl d.page_content.toList).map
      (fun t => Document.mk (String.mk t) d.metadata))).flatten)

/-- Supported file extensions (src/utils.py line 14). -/
def SUPPORTED_EXTS : List String := [".pdf", ".txt", ".md"]

/-- The final path component (Python `Path.name`). -/
def lastComponent (p : String) : String :=
  String.mk ((p.toList.reverse.takeWhile (fun c => c ≠ '/')).reverse)

/-- Python `Path.suffix`: the final component's extension including its dot;
empty when the name has no dot, starts with its only dot, or ends in a
dot. -/
def pySuffix (p : String) : String :=
  let name := (lastComponent p).toList
  let tail := name.reverse.takeWhile (fun c => c ≠ '.')
  if tail.length + 1 < name.length ∧ 0 < tail.length then
    String.mk ('.' :: tail.reverse)
  else ""

/-- Python `str.lower`, modelled on the ASCII range via `Char.toLower`. -/
def pyLower (s : String) : String := String.mk (s.toList.map Char.toLower)

/-- One entry of the recursive directory walk. -/
structure FSEntry where
  path : String
  isFile : Bool
deriving DecidableEq

/-- The external collaborators of `load_documents`: `Path.exists`, the
sorted recursive walk (`Path.rglob`), and the per-file loaders
(`PyPDFLoader` / `TextLoader`), which return a file's documents or fail. -/
structure FileSystem where
  pathExists : String → Bool
  walk : String → List FSEntry
  loadFile : String → Except String (List Document)

/-- Per-entry body of the `load_documents` loop (src/utils.py lines 63-89):
non-files and unsupported extensions are skipped, loader failures are
logged and skipped, and each loaded document gets `source` and `full_path`
stamped into its metadata. -/
def processEntry (fs : FileSystem) (e : FSEntry) : List Document :=
  if !e.isFile then []
  else if !(SUPPORTED_EXTS.contains (pyLower (pySuffix e.path))) then []
  else
    match fs.loadFile e.path with
    | .error _ => []
    | .ok ds => ds.map (fun d =>
        Document.mk d.page_content
          (setMeta (setMeta d.metadata "source" (lastComponent e.path))
            "full_path" e.path))

/-- `load_documents` (src/utils.py lines 17-91): a missing directory is
logged and yields the empty list; otherwise every walked entry is
processed in order. -/
def load_documents (fs : FileSystem) (data_dir : String) : List Document :=
  if !fs.pathExists data_dir then []
  else ((fs.walk data_dir).map (processEntry fs)).flatten

/-! ## ingest.py: chunk ids -/

/-- Modelled from documented CPython semantics (and flagged by the spec's
design notes): `hash` of a Python `str` is keyed by a per-process random
salt (`PYTHONHASHSEED`), so its value is a function of both the string and
the salt of the process computing it.  The repository does not pin the
salt.  The SipHash implementation itself is not part of the repository;
it is modelled as a seeded rolling hash, keeping the property that matters
here: the result depends on the salt. -/
def pyHash (salt : Nat) (s : List Char) : Nat :=
  s.foldl (fun a c => (a * 1000003 + c.toNat) % 2 ^ 61) (salt % 2 ^ 61)

/-- Python's `str(dict)` rendering of the chunk metadata, as concatenated
into the hashed string by `ingest.main` (src/ingest.py line 74). -/
def reprMeta (m : List (String × String)) : String :=
  "\x7b" ++
    String.intercalate ", "
      (m.map (fun p => "'" ++ p.1 ++ "': '" ++ p.2 ++ "'")) ++
  "\x7d"

/-- Chunk ids as computed by `ingest.main` (src/ingest.py lines 73-75):
the f-string interpolating `hash(chunk.page_content + str(chunk.metadata))`
and the ordinal `i` between "chunk_" and "_" literals, computed
by a process whose string hashing is keyed by `salt`. -/
def chunkIds (salt : Nat) (chunks : List Document) : List String :=
  chunks.enum.map (fun p =>
    "chunk_" ++
      toString (pyHash salt (p.2.page_content ++ reprMeta p.2.metadata).toList) ++
      "_" ++ toString p.1)

/-! ## api.py: the qa endpoint -/

/-- The default number of retrieved documents (src/api.py line 33, env
default "4"). -/
def TOP_K : Int := 4

/-- The validated request body (src/api.py lines 36-38). -/
structure Query where
  question : String
  top_k : Option Int
deriving DecidableEq

/-- The response body (src/api.py lines 41-44); `confidence` is declared
but never set by the handler. -/
structure Answer where
  answer : String
  sources : List String
  confidence : Option Float := none

/-- The two error channels of the API surface: FastAPI/pydantic request
validation (HTTP 422) and the handler's catch-all (HTTP 500,
src/api.py lines 129-131). -/
inductive ApiError
  | validation (detail : String)
  | internal (detail : String)
deriving DecidableEq

/-- Pydantic validation of the request body (src/api.py lines 36-38):
`question` must have length in `[1, 500]`, and an explicit `top_k` must lie
in `[1, 10]`; violations reject the request before the handler runs. -/
def parseQuery (question : String) (top_k : Option Int) : Except ApiError Query :=
  if question.length < 1 then .error (.validation "question: shorter than min_length 1")
  else if 500 < question.length then .error (.validation "question: longer than max_length 500")
  else
    match top_k with
    | none => .ok ⟨question, none⟩
    | some t =>
      if t < 1 then .error (.validation "top_k: less than ge 1")
      else if 10 < t then .error (.validation "top_k: greater than le 10")
      else .ok ⟨question, some t⟩

/-- `k = q.top_k if q.top_k else TOP_K` (src/api.py line 83), with Python
truthiness: both `None` and `0` fall back to the default. -/
def effectiveK (q : Query) : Int :=
  match q.top_k with
  | some t => if t = 0 then TOP_K else t
  | none => TOP_K

/-- The fixed system instruction (src/api.py lines 103-111). -/
def systemInstruction : String :=
  "Tu es un assistant de question-réponse précis et utile. " ++
  "Réponds en français en te basant uniquement sur le contexte fourni. " ++
  "Si l'information n'est pas dans le contexte, dis-le clairement. " ++
  "Sois concis mais complet."

/-- The fixed empty-retrieval answer (src/api.py lines 89-92). -/
def noDocsAnswer : Answer :=
  { answer := "Je n'ai trouvé aucun document pertinent pour répondre à votre question.",
    sources := [] }

/-- One message of the generation prompt. -/
structure ChatMessage where
  role : String
  content : String
deriving DecidableEq

/-- The labeled context blocks (src/api.py lines 95-98): one block
`"[Source i: <source>]\n<chunk text>"` per retrieved document, `i` being
the 1-based rank; a missing `source` metadata field falls back to
"inconnu". -/
def contextParts (docs : List Document) : List String :=
  docs.enum.map (fun p =>
    "[Source " ++ toString (p.1 + 1) ++ ": " ++
      getMeta p.2.metadata "source" "inconnu" ++ "]\n" ++ p.2.page_content)

/-- The two-message prompt (src/api.py lines 100-116). -/
def buildMessages (question : String) (docs : List Document) : List ChatMessage :=
  [⟨"system", systemInstruction⟩,
   ⟨"user", "CONTEXTE:\n" ++ String.intercalate "\n\n" (contextParts docs) ++
      "\n\nQUESTION: " ++ question⟩]

/-- Ordered deduplication via `list(dict.fromkeys(sources))`
(src/api.py line 122): a Python dict keeps one entry per key, in
first-insertion order. -/
def pyDedup (l : List String) : List String :=
  l.foldl (fun acc s => if s ∈ acc then acc else acc ++ [s]) []

/-- The raw, rank-ordered source fields (src/api.py line 119). -/
def rawSources (docs : List Document) : List String :=
  docs.map (fun d => getMeta d.metadata "source" "inconnu")

/-- Written from the spec's words, as the reference point for claim C6:
walk the sources in rank order and keep each one whose value has not
already appeared. -/
def specDedupAux : List String → List String → List String
  | _, [] => []
  | seen, s :: ss =>
    if s ∈ seen then specDedupAux seen ss else s :: specDedupAux (s :: seen) ss

/-- Written from the spec's words: deduplicate preserving first-occurrence
order, starting from nothing seen. -/
def specDedup (l : List String) : List String := specDedupAux [] l

/-- The `qa` endpoint (src/api.py lines 78-131), with the external
collaborators injected: `retrieved` is the vector store's response and
`llm` the generation call; a collaborator failure is caught by the
handler's `except` block and surfaced as an internal error. -/
def qaRun (question : String) (retrieved : Except String (List Document))
    (llm : List ChatMessage → Except String String) : Except ApiError Answer :=
  match retrieved with
  | .error e => .error (.internal ("Erreur interne: " ++ e))
  | .ok docs =>
    if docs.isEmpty then .ok noDocsAnswer
    else
      match llm (buildMessages question docs) with
      | .error e => .error (.internal ("Erreur interne: " ++ e))
      | .ok resp => .ok { answer := resp, sources := pyDedup (rawSources docs) }

/-- The full request path: pydantic validation first, then the handler,
with the store consulted at the validated `k`. -/
def handleRequest (retrieve : Int → Except String (List Document))
    (llm : List ChatMessage → Except String String)
    (question : String) (top_k : Option Int) : Except ApiError Answer :=
  match parseQuery question top_k with
  | .error e => .error e
  | .ok q => qaRun q.question (retrieve (effectiveK q)) llm

/-- A concrete store stub used by witnesses: always returns one fixed
document. -/
def demoRetrieve : Int → Except String (List Document) :=
  fun _ => .ok [⟨"Yaoundé est la capitale.", [("source", "note.txt")]⟩]

/-- A concrete generation stub used by witnesses. -/
def demoLlm : List ChatMessage → Except String String :=
  fun _ => .ok "Réponse."

/-- A concrete filesystem stub with no directories at all. -/
def emptyFS : FileSystem :=
  { pathExists := fun _ => false,
    walk := fun _ => [],
    loadFile := fun _ => .error "unreadable" }

/-! ## Reconstruction: the separator split loses nothing -/

theorem leadsWith_eq : ∀ (sep t : List Char), leadsWith sep t = true →
    t = sep ++ t.drop sep.length
  | [], t, _ => by simp
  | _ :: _, [], h => by simp [leadsWith] at h
  | a :: as, b :: bs, h => by
    simp only [leadsWith, Bool.and_eq_true, beq_iff_eq] at h
    obtain ⟨rfl, h2⟩ := h
    simpa using leadsWith_eq as bs h2

theorem splitOnce_eq : ∀ (sep t pre post : List Char),
    splitOnce sep t = some (pre, post) → t = pre ++ sep ++ post
  | _, [], _, _, h => by simp [splitOnce] at h
  | sep, c :: cs, pre, post, h => by
    by_cases hl : leadsWith sep (c :: cs)
    · simp only [splitOnce, hl, if_pos, Option.some.injEq, Prod.mk.injEq] at h
      obtain ⟨rfl, rfl⟩ := h
      simpa using leadsWith_eq sep (c :: cs) hl
    · simp only [splitOnce, hl, if_neg, Bool.false_eq_true, not_false_eq_true] at h
      match hrec : splitOnce sep cs with
      | none => rw [hrec] at h; exact absurd h (by simp)
      | some (p, q) =>
        rw [hrec] at h
        simp only [Option.some.injEq, Prod.mk.injEq] at h
        obtain ⟨rfl, rfl⟩ := h
        simpa using splitOnce_eq sep cs p q hrec

theorem splitKeepSepFuel_flatten (sep : List Char) :
    ∀ (fuel : Nat) (text : List Char),
      (splitKeepSepFuel sep fuel text).flatten = text
  | 0, [] => by simp [splitKeepSepFuel]
  | 0, _ :: _ => by simp [splitKeepSepFuel]
  | _ + 1, [] => by simp [splitKeepSepFuel]
  | fuel + 1, c :: cs => by
    simp only [splitKeepSepFuel]
    match hrec : splitOnce sep (c :: cs) with
    | none => simp
    | some (pre, post) =>
      have hsum := splitOnce_eq sep (c :: cs) pre post hrec
      simp only [List.flatten_cons, splitKeepSepFuel_flatten sep fuel post]
      simpa using hsum.symm

theorem splitKeepSep_flatten (sep text : List Char) :
    (splitKeepSep sep text).flatten = text := by
  unfold splitKeepSep
  by_cases h : sep.isEmpty
  · simp only [h, if_pos]
    induction text with
    | nil => simp
    | cons c cs ih => simp [ih]
  · simp only [h, Bool.false_eq_true, if_neg, not_false_eq_true]
    exact splitKeepSepFuel_flatten sep text.length text

theorem Rebuilds.single (covl : Nat) (prev c : List Char) :
    Rebuilds covl prev [c] c := by
  have h := @Rebuilds.cons covl prev c 0 [] [] (Or.inl rfl)
    (Nat.zero_le _) (by simp) (Rebuilds.nil c)
  simpa using h

theorem Rebuilds.append {covl : Nat} {prev : List Char} {cs1 cs2 : List (List Char)}
    {t1 t2 : List Char} (h1 : Rebuilds covl prev cs1 t1)
    (h2 : ∀ p, Rebuilds covl p cs2 t2) :
    Rebuilds covl prev (cs1 ++ cs2) (t1 ++ t2) := by
  induction h1 with
  | nil prev => simpa using h2 prev
  | cons prev c o cs t hoc holen hpre _ ih =>
    have h := Rebuilds.cons prev c o (cs ++ cs2) (t ++ t2) hoc holen hpre ih
    simpa [List.append_assoc] using h

theorem mergeLoop_rebuilds (f : List Char → List (List Char)) (csize covl : Nat)
    (hf : ∀ p t, Rebuilds covl p (f t) t) (segs : List (List Char)) :
    ∀ (buffer prev : List Char) (o : Nat),
      o = 0 ∨ o = min covl prev.length →
      o ≤ buffer.length →
      buffer.take o = prev.drop (prev.length - o) →
      Rebuilds covl prev (mergeLoop f csize covl segs buffer)
        (buffer.drop o ++ segs.flatten) := by
  induction segs with
  | nil =>
    intro buffer prev o hoc holen hpre
    match buffer with
    | [] =>
      have : o = 0 := Nat.le_zero.mp holen
      subst this
      simpa [mergeLoop] using @Rebuilds.nil covl prev
    | b :: bs =>
      have h := @Rebuilds.cons covl prev (b :: bs) o [] [] hoc holen hpre
        (Rebuilds.nil (b :: bs))
      simpa [mergeLoop] using h
  | cons s ss ih =>
    intro buffer prev o hoc holen hpre
    have hmergeTail : ∀ p : List Char,
        Rebuilds covl p (mergeLoop f csize covl ss []) ss.flatten := by
      intro p
      simpa using ih [] p 0 (Or.inl rfl) (Nat.zero_le _) (by simp)
    by_cases h1 : csize < s.length
    · -- the segment alone exceeds chunk_size: recurse into it
      match buffer with
      | [] =>
        have : o = 0 := Nat.le_zero.mp holen
        subst this
        have h := Rebuilds.append (hf prev s) hmergeTail
        simpa [mergeLoop, h1] using h
      | b :: bs =>
        have htail := Rebuilds.append (hf (b :: bs) s) hmergeTail
        have h := Rebuilds.cons prev (b :: bs) o _ _ hoc holen hpre htail
        simpa [mergeLoop, h1, List.append_assoc] using h
    · by_cases h2 : buffer.length + s.length ≤ csize
      · -- the segment fits: extend the buffer
        have hb : o ≤ (buffer ++ s).length := by
          rw [List.length_append]; omega
        have hpre' : (buffer ++ s).take o = prev.drop (prev.length - o) := by
          rw [List.take_append_of_le_length holen, hpre]
        have h := ih (buffer ++ s) prev o hoc hb hpre'
        rw [List.drop_append_of_le_length holen] at h
        simpa [mergeLoop, h1, h2, List.append_assoc] using h
      · -- the segment does not fit: emit the buffer, seed with its overlap
        set seed := overlapSuffix covl buffer with hseed
        have hseedlen : seed.length = buffer.length - (buffer.length - covl) := by
          rw [hseed]; unfold overlapSuffix; rw [List.length_drop]
        have hoc' : seed.length = 0 ∨ seed.length = min covl buffer.length := by
          right; rw [hseedlen]; omega
        have hb' : seed.length ≤ (seed ++ s).length := by
          rw [List.length_append]; omega
        have hpre' : (seed ++ s).take seed.length =
            buffer.drop (buffer.length - seed.length) := by
          rw [List.take_left, hseedlen]
          rw [hseed]; unfold overlapSuffix
          congr 1
          omega
        have htail := ih (seed ++ s) buffer seed.length hoc' hb' hpre'
        rw [List.drop_left] at htail
        have h := Rebuilds.cons prev buffer o _ _ hoc holen hpre htail
        simpa [mergeLoop, h1, h2, List.append_assoc] using h

theorem splitRec_rebuilds (csize covl : Nat) :
    ∀ (seps : List (List Char)) (text prev : List Char),
      Rebuilds covl prev (splitRec csize covl seps text) text := by
  intro seps
  induction seps with
  | nil =>
    intro text prev
    by_cases h : text.isEmpty
    · rw [List.isEmpty_iff] at h
      subst h
      simpa [splitRec] using @Rebuilds.nil covl prev
    · simpa [splitRec, h] using Rebuilds.single covl prev text
  | cons sep rest ih =>
    intro text prev
    by_cases h : text.isEmpty
    · rw [List.isEmpty_iff] at h
      subst h
      simpa [splitRec] using @Rebuilds.nil covl prev
    · by_cases h2 : text.length ≤ csize
      · simpa [splitRec, h, h2] using Rebuilds.single covl prev text
      · have hmerge := mergeLoop_rebuilds (splitRec csize covl rest) csize covl
          (fun p t => ih t p) (splitKeepSep sep text) [] prev 0
          (Or.inl rfl) (Nat.zero_le _) (by simp)
        rw [splitKeepSep_flatten] at hmerge
        simpa [splitRec, h, h2] using hmerge

/-- Every split reconstructs its input text under the overlap discipline. -/
theorem splitText_rebuilds (csize covl : Nat) (text : List Char) :
    Rebuilds covl [] (splitText csize covl text) text :=
  splitRec_rebuilds csize covl defaultSeparators text []

/-- The overlap discipline can be flattened to a list of per-chunk drop
amounts, each at most `covl`, whose removal reconstructs the text. -/
theorem Rebuilds.toDrops {covl : Nat} :
    ∀ {prev : List Char} {cs : List (List Char)} {t : List Char},
      Rebuilds covl prev cs t →
      ∃ os : List Nat, os.length = cs.length ∧ (∀ o ∈ os, o ≤ covl) ∧
        (os.head? = none ∨
          ∃ o0, os.head? = some o0 ∧ (o0 = 0 ∨ o0 = min covl prev.length)) ∧
        (List.zipWith (fun o c => c.drop o) os cs).flatten = t := by
  intro prev cs t h
  induction h with
  | nil prev => exact ⟨[], rfl, by simp, Or.inl rfl, rfl⟩
  | cons prev c o cs t hoc holen hpre _ ih =>
    obtain ⟨os, hlen, hbound, _, hflat⟩ := ih
    refine ⟨o :: os, by simp [hlen], ?_, ?_, by simp [hflat]⟩
    · intro x hx
      rcases List.mem_cons.mp hx with rfl | hx
      · rcases hoc with rfl | rfl
        · exact Nat.zero_le _
        · exact Nat.min_le_left _ _
      · exact hbound x hx
    · exact Or.inr ⟨o, rfl, hoc⟩

/-! ## Size bound -/

theorem mergeLoop_length_le (f : List Char → List (List Char)) (csize covl : Nat)
    (segs : List (List Char)) :
    ∀ buffer : List Char,
      (∀ s ∈ segs, csize < s.length → ∀ c ∈ f s, c.length ≤ csize + covl) →
      buffer.length ≤ csize + covl →
      ∀ c ∈ mergeLoop f csize covl segs buffer, c.length ≤ csize + covl := by
  induction segs with
  | nil =>
    intro buffer _ hbuf c hc
    by_cases hb : buffer.isEmpty
    · simp [mergeLoop, hb] at hc
    · simp only [mergeLoop, hb, Bool.false_eq_true, if_neg, not_false_eq_true,
        List.mem_singleton] at hc
      subst hc; exact hbuf
  | cons s ss ih =>
    intro buffer hf hbuf c hc
    by_cases h1 : csize < s.length
    · simp only [mergeLoop, h1, if_pos] at hc
      rcases List.mem_append.mp hc with hc | hc
      · rcases List.mem_append.mp hc with hc | hc
        · by_cases hb : buffer.isEmpty
          · simp [hb] at hc
          · simp only [hb, Bool.false_eq_true, if_neg, not_false_eq_true,
              List.mem_singleton] at hc
            subst hc; exact hbuf
        · exact hf s (by simp) h1 c hc
      · exact ih [] (fun s' hs' => hf s' (by simp [hs'])) (by simp) c hc
    · by_cases h2 : buffer.length + s.length ≤ csize
      · simp only [mergeLoop, h1, if_neg, not_false_eq_true, h2, if_pos] at hc
        refine ih (buffer ++ s) (fun s' hs' => hf s' (by simp [hs'])) ?_ c hc
        rw [List.length_append]; omega
      · simp only [mergeLoop, h1, if_neg, not_false_eq_true, h2, List.mem_cons] at hc
        rcases hc with rfl | hc
        · exact hbuf
        · refine ih (overlapSuffix covl buffer ++ s)
            (fun s' hs' => hf s' (by simp [hs'])) ?_ c hc
          rw [List.length_append]
          unfold overlapSuffix
          rw [List.length_drop]
          omega

theorem splitRec_length_le (csize covl : Nat) (hcs : 1 ≤ csize) :
    ∀ seps : List (List Char), [] ∈ seps →
      ∀ text c : List Char, c ∈ splitRec csize covl seps text →
        c.length ≤ csize + covl := by
  intro seps
  induction seps with
  | nil => intro h; simp at h
  | cons sep rest ih =>
    intro hmem text c hc
    by_cases he : text.isEmpty
    · simp [splitRec, he] at hc
    · by_cases h2 : text.length ≤ csize
      · simp only [splitRec, he, Bool.false_eq_true, if_neg, not_false_eq_true,
          h2, if_pos, List.mem_singleton] at hc
        subst hc; omega
      · simp only [splitRec, he, Bool.false_eq_true, if_neg, not_false_eq_true,
          h2] at hc
        refine mergeLoop_length_le _ csize covl _ [] ?_ (by simp) c hc
        intro s hs hlen c' hc'
        by_cases hsep : sep = []
        · exfalso
          subst hsep
          simp only [splitKeepSep, List.isEmpty_nil, if_pos, List.mem_map] at hs
          obtain ⟨a, _, rfl⟩ := hs
          simp at hlen
          omega
        · have hrest : ([] : List Char) ∈ rest := by
            rcases List.mem_cons.mp hmem with h | h
            · exact absurd h.symm hsep
            · exact h
          exact ih hrest s c' hc'

/-! ## Ordered deduplication -/

theorem specDedupAux_congr : ∀ (l seen1 seen2 : List String),
    (∀ x, x ∈ seen1 ↔ x ∈ seen2) →
    specDedupAux seen1 l = specDedupAux seen2 l
  | [], _, _, _ => rfl
  | s :: ss, seen1, seen2, h => by
    by_cases hs : s ∈ seen1
    · simp only [specDedupAux, hs, if_pos, (h s).mp hs]
      exact specDedupAux_congr ss seen1 seen2 h
    · have hs2 : s ∉ seen2 := fun hx => hs ((h s).mpr hx)
      simp only [specDedupAux, hs, hs2, if_neg, not_false_eq_true]
      refine congrArg _ (specDedupAux_congr ss (s :: seen1) (s :: seen2) ?_)
      intro x
      simp [h x]

theorem foldl_dedup_eq_specDedupAux : ∀ (l acc : List String),
    l.foldl (fun acc s => if s ∈ acc then acc else acc ++ [s]) acc =
      acc ++ specDedupAux acc l
  | [], acc => by simp [specDedupAux]
  | s :: ss, acc => by
    by_cases hs : s ∈ acc
    · simp only [List.foldl_cons, hs, if_pos, specDedupAux]
      exact foldl_dedup_eq_specDedupAux ss acc
    · simp only [List.foldl_cons, hs, if_neg, not_false_eq_true, specDedupAux]
      rw [foldl_dedup_eq_specDedupAux ss (acc ++ [s])]
      rw [specDedupAux_congr ss (acc ++ [s]) (s :: acc) (by intro x; simp; tauto)]
      simp

/-- `list(dict.fromkeys(l))` computes exactly the spec's ordered
first-occurrence deduplication. -/
theorem pyDedup_eq_specDedup (l : List String) : pyDedup l = specDedup l := by
  simpa [pyDedup, specDedup] using foldl_dedup_eq_specDedupAux l []

theorem mem_specDedupAux : ∀ (l seen : List String) (a : String),
    a ∈ specDedupAux seen l ↔ a ∈ l ∧ a ∉ seen
  | [], seen, a => by simp [specDedupAux]
  | s :: ss, seen, a => by
    by_cases hs : s ∈ seen
    · simp only [specDedupAux, hs, if_pos, mem_specDedupAux ss seen a,
        List.mem_cons]
      constructor
      · rintro ⟨h1, h2⟩; exact ⟨Or.inr h1, h2⟩
      · rintro ⟨h1 | h1, h2⟩
        · subst h1; exact absurd hs h2
        · exact ⟨h1, h2⟩
    · simp only [specDedupAux, hs, if_neg, not_false_eq_true, List.mem_cons,
        mem_specDedupAux ss (s :: seen) a]
      by_cases ha : a = s
      · subst ha; simp [hs]
      · simp [ha]

theorem nodup_specDedupAux : ∀ (l seen : List String), (specDedupAux seen l).Nodup
  | [], _ => List.nodup_nil
  | s :: ss, seen => by
    by_cases hs : s ∈ seen
    · simpa only [specDedupAux, hs, if_pos] using nodup_specDedupAux ss seen
    · simp only [specDedupAux, hs, if_neg, not_false_eq_true, List.nodup_cons]
      refine ⟨?_, nodup_specDedupAux ss (s :: seen)⟩
      intro hmem
      exact ((mem_specDedupAux ss (s :: seen) s).mp hmem).2 (by simp)

theorem sublist_specDedupAux : ∀ (l seen : List String),
    List.Sublist (specDedupAux seen l) l
  | [], _ => List.Sublist.refl []
  | s :: ss, seen => by
    by_cases hs : s ∈ seen
    · simp only [specDedupAux, hs, if_pos]
      exact (sublist_specDedupAux ss seen).trans (List.sublist_cons_self s ss)
    · simp only [specDedupAux, hs, if_neg, not_false_eq_true]
      exact List.Sublist.cons₂ s (sublist_specDedupAux ss (s :: seen))

/-! ## The claims -/

/-- Claim C1: the spec requires the chunk id to be a deterministic function
of `(text, metadata, ordinal)` so that two separate ingestion runs produce
identical ids.  The code (src/ingest.py lines 73-75) instead feeds the text
and metadata to Python's built-in `hash`, whose value on strings is keyed
by a per-process random salt: two runs in different processes hash the same
chunk to different ids.  This theorem exhibits the divergence at a concrete
chunk list: the id lists of two processes with different salts differ. -/
theorem c1_ids_differ_across_processes :
    chunkIds 0 [Document.mk "Le Cameroun" [("source", "a.txt")]] ≠
      chunkIds 1 [Document.mk "Le Cameroun" [("source", "a.txt")]] := by
  decide

/-- Claim C2: splitting with `chunk_overlap ≥ chunk_size` (in particular
equality) is rejected with a ConfigurationError, for every document list,
before any document is split: the result is the error for all inputs. -/
theorem c2_overlap_ge_size_fails_fast (docs : List Document) (csize covl : Nat)
    (h : csize ≤ covl) :
    split_documents docs csize covl =
      Except.error ConfigurationError.overlapNotLessThanSize := by
  simp [split_documents, h]

theorem c2_overlap_ge_size_fails_fast_witness :
    (5 : Nat) ≤ 5 ∧
      split_documents [Document.mk "abc def" [("source", "a.txt")]] 5 5 =
        Except.error ConfigurationError.overlapNotLessThanSize :=
  ⟨by decide,
    c2_overlap_ge_size_fails_fast [Document.mk "abc def" [("source", "a.txt")]]
      5 5 (by decide)⟩

/-- Claim C3 as stated is false on the modelled splitter: removing exactly
`chunk_overlap` leading characters from every chunk but the first does not
reconstruct the input.  With `chunk_size = 10`, `chunk_overlap = 5` (a
valid pair) and input "aaa bbbbbbbb", the chunks are
["aaa ", "aaa bbbbbbbb"]: the first chunk is only 4 characters long, so
its seeded overlap is 4 characters, and dropping 5 loses one character. -/
theorem c3_exact_drop_counterexample :
    ¬ dropOverlapConcat 5 (splitText 10 5 "aaa bbbbbbbb".toList) =
        "aaa bbbbbbbb".toList := by
  decide

/-- Claim C3 (amended): for every text and every parameter pair there is a
list of per-chunk drop amounts, each at most `chunk_overlap` and zero for
the first chunk, such that concatenating the chunks after removing those
leading overlaps reproduces the text exactly.  (The drop amount can fall
short of `chunk_overlap` when the previous chunk is shorter than the
overlap, and is zero at boundaries created by recursing into an oversized
segment.) -/
theorem c3_reconstruction (csize covl : Nat) (text : List Char) :
    ∃ os : List Nat, os.length = (splitText csize covl text).length ∧
      (∀ o ∈ os, o ≤ covl) ∧ (os.head? = none ∨ os.head? = some 0) ∧
      (List.zipWith (fun o c => c.drop o) os (splitText csize covl text)).flatten
        = text := by
  obtain ⟨os, h1, h2, h3, h4⟩ := (splitText_rebuilds csize covl text).toDrops
  refine ⟨os, h1, h2, ?_, h4⟩
  rcases h3 with h | ⟨o0, ho, hc⟩
  · exact Or.inl h
  · right
    rw [ho]
    rcases hc with rfl | h
    · rfl
    · simp only [List.length_nil, Nat.min_zero] at h
      subst h
      rfl

/-- Claim C4 as stated is false on the modelled splitter: with
`chunk_size = 10`, `chunk_overlap = 5` and input "aaaaaaaa bbbbbbbb", the
second chunk "aaaa bbbbbbbb" has 13 > 10 characters although it is not a
single indivisible unit (with the default separators the only indivisible
units are single characters, of length 1). -/
theorem c4_size_bound_counterexample :
    ¬ ∀ c ∈ splitText 10 5 "aaaaaaaa bbbbbbbb".toList,
        c.length ≤ 10 ∨ c.length = 1 := by
  decide

/-- Claim C4 (amended): with the default separator hierarchy (whose final
per-character separator leaves no indivisible unit larger than one
character) and `chunk_size ≥ 1`, every chunk's length is at most
`chunk_size + chunk_overlap`: a chunk may exceed `chunk_size` by up to
`chunk_overlap` characters when the overlap seed plus one segment
overflows, and by no more. -/
theorem c4_size_bound (csize covl : Nat) (hcs : 1 ≤ csize)
    (text c : List Char) (hc : c ∈ splitText csize covl text) :
    c.length ≤ csize + covl :=
  splitRec_length_le csize covl hcs defaultSeparators
    (by simp [defaultSeparators]) text c hc

theorem c4_size_bound_witness :
    1 ≤ 10 ∧ ("aaaa bbbbbbbb".toList).length ≤ 10 + 5 :=
  ⟨by decide,
    c4_size_bound 10 5 (by decide) "aaaaaaaa bbbbbbbb".toList
      "aaaa bbbbbbbb".toList (by decide)⟩

/-- Claim C5 as stated is false on the modelled splitter: adjacent chunks
need not share a suffix/prefix of exactly `chunk_overlap` characters even
in the middle of a document.  With `chunk_size = 5`, `chunk_overlap = 2`
and input "ab cd\n\nxy zw", the chunks are
["ab ", "b cd\n", "\n", "xy zw"]; the adjacent pair ("b cd\n", "\n") is
preceded by 6 ≥ 2 characters of document text yet shares only 1 character,
because the boundary comes from recursing into an oversized segment. -/
theorem c5_exact_overlap_counterexample :
    splitText 5 2 "ab cd\n\nxy zw".toList =
        ["ab ".toList, "b cd\n".toList, "\n".toList, "xy zw".toList] ∧
      sharedOverlap "b cd\n".toList "\n".toList = 1 ∧ (1 : Nat) ≠ 2 := by
  refine ⟨by decide, by decide, by decide⟩

/-- Claim C5 (amended): each chunk after the first begins with a leading
overlap copied verbatim from the end of the chunk before it, of length
either exactly `min chunk_overlap (previous chunk's length)` (greedy-pack
boundaries) or zero (boundaries created by recursing into an oversized
segment); these leading overlaps are exactly what reconstruction removes.
This is the `Rebuilds` relation, proved for every split. -/
theorem c5_overlap_discipline (csize covl : Nat) (text : List Char) :
    Rebuilds covl [] (splitText csize covl text) text :=
  splitText_rebuilds csize covl text

/-- Claim C6: for a non-empty retrieval, the Answer's `sources` is the
rank-ordered sequence of the retrieved documents' `source` fields,
deduplicated preserving first-occurrence order (the spec's ordered
deduplication, `specDedup`); the deduplicated list has no duplicates and
is an order-preserving sublist of the raw sequence. -/
theorem c6_sources_ordered_dedup (docs : List Document) (question resp : String)
    (h : docs ≠ []) :
    qaRun question (Except.ok docs) (fun _ => Except.ok resp) =
        Except.ok { answer := resp, sources := specDedup (rawSources docs) } ∧
      (specDedup (rawSources docs)).Nodup ∧
      List.Sublist (specDedup (rawSources docs)) (rawSources docs) := by
  have hne : docs.isEmpty = false := by
    simpa [List.isEmpty_iff] using h
  refine ⟨?_, nodup_specDedupAux (rawSources docs) [],
    sublist_specDedupAux (rawSources docs) []⟩
  simp [qaRun, hne, pyDedup_eq_specDedup]

theorem c6_sources_ordered_dedup_witness :
    ([Document.mk "t1" [("source", "A")], Document.mk "t2" [("source", "B")],
        Document.mk "t3" [("source", "A")], Document.mk "t4" [("source", "C")]]
      ≠ ([] : List Document)) ∧
    qaRun "q"
        (Except.ok [Document.mk "t1" [("source", "A")],
          Document.mk "t2" [("source", "B")], Document.mk "t3" [("source", "A")],
          Document.mk "t4" [("source", "C")]])
        (fun _ => Except.ok "ans") =
      Except.ok { answer := "ans", sources := ["A", "B", "C"] } :=
  ⟨by decide,
    by
      have h := (c6_sources_ordered_dedup
        [Document.mk "t1" [("source", "A")], Document.mk "t2" [("source", "B")],
          Document.mk "t3" [("source", "A")], Document.mk "t4" [("source", "C")]]
        "q" "ans" (by decide)).1
      rw [h]
      rfl⟩

/-- Claim C7: when retrieval returns zero documents, `qa` returns the fixed
no-result Answer with empty sources, for every question and every language
model (even a failing one, since the model is never consulted on this
path); no error is produced. -/
theorem c7_empty_retrieval_fixed_answer (question : String)
    (llm : List ChatMessage → Except String String) :
    qaRun question (Except.ok []) llm = Except.ok noDocsAnswer ∧
      noDocsAnswer.sources = [] :=
  ⟨rfl, rfl⟩

/-- Claim C8: an explicit `top_k` outside `[1, 10]` is rejected by request
validation with a validation (not internal) error, identically for every
store and every model — the store is never queried; with no override, the
handler queries the store at the configured default `k = 4`. -/
theorem c8_topk_validation (question : String) (t : Int)
    (hq : 1 ≤ question.length ∧ question.length ≤ 500)
    (ht : t < 1 ∨ 10 < t) :
    (∀ retrieve llm, handleRequest retrieve llm question (some t) =
        Except.error (ApiError.validation
          (if t < 1 then "top_k: less than ge 1"
            else "top_k: greater than le 10"))) ∧
      (∀ retrieve llm, handleRequest retrieve llm question none =
        qaRun question (retrieve 4) llm) := by
  have h1 : ¬ question.length < 1 := by omega
  have h2 : ¬ 500 < question.length := by omega
  constructor
  · intro retrieve llm
    rcases ht with ht | ht
    · simp [handleRequest, parseQuery, h1, h2, ht]
    · have ht' : ¬ t < 1 := by omega
      simp [handleRequest, parseQuery, h1, h2, ht, ht']
  · intro retrieve llm
    simp [handleRequest, parseQuery, h1, h2, effectiveK, TOP_K]

theorem c8_topk_validation_witness :
    (1 ≤ "q".length ∧ "q".length ≤ 500) ∧ ((11 : Int) < 1 ∨ 10 < (11 : Int)) ∧
      handleRequest demoRetrieve demoLlm "q" (some 11) =
        Except.error (ApiError.validation
          (if (11 : Int) < 1 then "top_k: less than ge 1"
            else "top_k: greater than le 10")) ∧
      handleRequest demoRetrieve demoLlm "q" none =
        qaRun "q" (demoRetrieve 4) demoLlm :=
  ⟨⟨by decide, by decide⟩, Or.inr (by decide),
    (c8_topk_validation "q" 11 ⟨by decide, by decide⟩ (Or.inr (by decide))).1
      demoRetrieve demoLlm,
    (c8_topk_validation "q" 11 ⟨by decide, by decide⟩ (Or.inr (by decide))).2
      demoRetrieve demoLlm⟩

/-- Claim C9: when the data directory does not exist, `load_documents`
returns the empty list (for every filesystem and directory path) — the
function's only action on that path is the early return, so a missing
directory never aborts the caller. -/
theorem c9_missing_directory_empty (fs : FileSystem) (data_dir : String)
    (h : fs.pathExists data_dir = false) :
    load_documents fs data_dir = [] := by
  simp [load_documents, h]

theorem c9_missing_directory_empty_witness :
    emptyFS.pathExists "data" = false ∧ load_documents emptyFS "data" = [] :=
  ⟨rfl, c9_missing_directory_empty emptyFS "data" rfl⟩

/-- Claim C10: a retrieved document whose metadata has no `source` key
contributes the fixed string "inconnu" both to its labeled context block
(at its 1-based rank) and to the raw source sequence, and "inconnu"
therefore appears in the Answer's deduplicated sources; the document is
neither dropped nor does the handler fail. -/
theorem c10_missing_source_inconnu (docs : List Document) (i : Nat) (d : Document)
    (hd : docs[i]? = some d) (hs : lookupMeta d.metadata "source" = none) :
    (contextParts docs)[i]? =
        some ("[Source " ++ toString (i + 1) ++ ": " ++ "inconnu" ++ "]\n" ++
          d.page_content) ∧
      (rawSources docs)[i]? = some "inconnu" ∧
      "inconnu" ∈ pyDedup (rawSources docs) := by
  have hfind : d.metadata.find? (fun p => p.1 == "source") = none := by
    unfold lookupMeta at hs
    exact Option.map_eq_none.mp hs
  have hget : getMeta d.metadata "source" "inconnu" = "inconnu" := by
    unfold getMeta
    rw [hfind]
  have hraw : (rawSources docs)[i]? = some "inconnu" := by
    unfold rawSources
    rw [List.getElem?_map, hd]
    simp [hget]
  refine ⟨?_, hraw, ?_⟩
  · unfold contextParts
    rw [List.getElem?_map, List.getElem?_enum, hd]
    simp [hget]
  · rw [pyDedup_eq_specDedup]
    have hmem : "inconnu" ∈ rawSources docs := by
      have := List.getElem?_mem hraw
      exact this
    exact (mem_specDedupAux (rawSources docs) [] "inconnu").mpr ⟨hmem, by simp⟩

theorem c10_missing_source_inconnu_witness :
    ([Document.mk "texte" [("full_path", "x")]] : List Document)[0]? =
        some (Document.mk "texte" [("full_path", "x")]) ∧
      lookupMeta [("full_path", "x")] "source" = none ∧
      (contextParts [Document.mk "texte" [("full_path", "x")]])[0]? =
        some ("[Source " ++ toString (0 + 1) ++ ": " ++ "inconnu" ++ "]\n" ++
          "texte") ∧
      "inconnu" ∈ pyDedup (rawSources [Document.mk "texte" [("full_path", "x")]]) :=
  ⟨by decide, by decide,
    (c10_missing_source_inconnu [Document.mk "texte" [("full_path", "x")]] 0
      (Document.mk "texte" [("full_path", "x")]) (by decide) (by decide)).1,
    (c10_missing_source_inconnu [Document.mk "texte" [("full_path", "x")]] 0
      (Document.mk "texte" [("full_path", "x")]) (by decide) (by decide)).2.2⟩

end ChatBotQA
